import Mathlib

/-!
Shallow embedding of the SNOL interpreter (`SNOL_Task1.py`) and proofs of
the specification claims.  The Python source is a line-oriented REPL:
tokenizer (regex based), parser producing one of five commands, a typed
variable store (int / float), and an expression evaluator that substitutes
variable values into the expression text and hands the result to Python's
`eval`.  Machine floats are modelled as exact rationals (`Frac` below);
every value exercised by the claims is an exactly representable short
decimal, where this idealisation agrees with IEEE doubles and with
Python's `repr`.
-/

namespace SNOL

/-! ## Exact rationals

A small normalized-fraction type is used instead of `Rat` so that every
arithmetic step reduces inside the kernel.  All constructors go through
`mkFrac`, so reachable values are always in lowest terms with a positive
denominator, and structural equality is rational equality. -/

/-- A rational number `num / den` in lowest terms, `den > 0` for all
values built by `mkFrac`. -/
structure Frac where
  num : Int
  den : Nat
deriving DecidableEq, Repr

/-- Normalize a fraction (zero denominator is mapped to `0`, which no
reachable computation produces). -/
def mkFrac (n : Int) (d : Nat) : Frac :=
  if d = 0 then ⟨0, 1⟩
  else
    let g := n.natAbs.gcd d
    ⟨n / (g : Int), d / g⟩

/-- Embed an integer. -/
def Frac.ofInt (n : Int) : Frac := ⟨n, 1⟩

/-- Addition. -/
def Frac.addF (a b : Frac) : Frac :=
  mkFrac (a.num * b.den + b.num * a.den) (a.den * b.den)

/-- Subtraction. -/
def Frac.subF (a b : Frac) : Frac :=
  mkFrac (a.num * b.den - b.num * a.den) (a.den * b.den)

/-- Multiplication. -/
def Frac.mulF (a b : Frac) : Frac := mkFrac (a.num * b.num) (a.den * b.den)

/-- Division (caller excludes a zero divisor). -/
def Frac.divF (a b : Frac) : Frac :=
  if b.num < 0 then mkFrac (-(a.num * b.den)) (a.den * b.num.natAbs)
  else mkFrac (a.num * b.den) (a.den * b.num.natAbs)

/-- Negation. -/
def Frac.negF (a : Frac) : Frac := ⟨-a.num, a.den⟩

/-- Test for zero. -/
def Frac.isZero (a : Frac) : Bool := a.num = 0

/-- Floor, for Python's floored `%`. -/
def Frac.floorF (a : Frac) : Int := Int.fdiv a.num a.den

/-! ## Values and the variable store -/

/-- Runtime value: Python `int` or Python `float` (exact rational). -/
inductive Value where
  | int (n : Int)
  | float (q : Frac)
deriving DecidableEq, Repr

/-- The variable store: association list mirroring the Python dict
`variable_store` (insertion order preserved, overwrite in place). -/
abbrev Store := List (String × Value)

/-- Dict lookup, `variable_store[k]` / `k in variable_store`. -/
def lookupVar : Store → String → Option Value
  | [], _ => none
  | (k', v') :: rest, k => if k' = k then some v' else lookupVar rest k

/-- Dict write `variable_store[k] = v`: overwrite in place, else append. -/
def setVar : Store → String → Value → Store
  | [], k, v => [(k, v)]
  | (k', v') :: rest, k, v =>
    if k' = k then (k, v) :: rest else (k', v') :: setVar rest k v

/-! ## Errors (the SNOL exception classes) -/

/-- The three SNOL exception classes of the source:
`SNOLSyntaxError` (with its message), `SNOLUnknownCommandError`,
`SNOLInvalidVariableError` (with the offending name). -/
inductive SNOLError where
  | syntaxError (msg : String)
  | unknownCommand
  | invalidVariable (name : String)
deriving DecidableEq, Repr

/-! ## Character classes and regex-equivalent matchers -/

/-- Word character for Python's `\b` word boundary (ASCII fragment). -/
def isWordChar (c : Char) : Bool := c.isAlphanum || c = '_'

/-- List `l` begins with `p`. -/
def listPre : List Char → List Char → Bool
  | [], _ => true
  | _ :: _, [] => false
  | p :: ps, c :: cs => p = c && listPre ps cs

/-- Substring occurrence: Python's `pat in s`. -/
def subOccurs (pat : List Char) : List Char → Bool
  | [] => listPre pat []
  | c :: rest => listPre pat (c :: rest) || subOccurs pat rest

/-- Full match of `[a-zA-Z][a-zA-Z0-9]*` on a char list. -/
def matchIdentChars : List Char → Bool
  | [] => false
  | c :: cs => c.isAlpha && cs.all Char.isAlphanum

/-- Full match of `[a-zA-Z][a-zA-Z0-9]*` (the identifier grammar). -/
def matchIdentStr (s : String) : Bool := matchIdentChars s.toList

/-- Nonempty run of ASCII digits. -/
def matchDigits (cs : List Char) : Bool := !cs.isEmpty && cs.all Char.isDigit

/-- Full match of `-?\d+`. -/
def matchIntChars : List Char → Bool
  | '-' :: rest => matchDigits rest
  | cs => matchDigits cs

/-- Full match of `-?\d+` on a string. -/
def matchIntStr (s : String) : Bool := matchIntChars s.toList

/-- Helper: digits '.' digits with both runs nonempty. -/
def matchFloatBody (cs : List Char) : Bool :=
  let ds := cs.takeWhile Char.isDigit
  let r := cs.dropWhile Char.isDigit
  !ds.isEmpty &&
    (match r with
     | '.' :: fs => !fs.isEmpty && fs.all Char.isDigit
     | _ => false)

/-- Full match of `-?\d+\.\d+`. -/
def matchFloatChars : List Char → Bool
  | '-' :: rest => matchFloatBody rest
  | cs => matchFloatBody cs

/-- Full match of `-?\d+\.\d+` on a string. -/
def matchFloatStr (s : String) : Bool := matchFloatChars s.toList

/-- Full match of `-?\d+(\.\d+)?` on a string. -/
def matchNumStr (s : String) : Bool := matchIntStr s || matchFloatStr s

/-! ## Numeric literal parsing and Python string rendering -/

/-- Digits to a natural number (most significant first). -/
def digitsToNat (cs : List Char) : Nat :=
  cs.foldl (fun acc c => acc * 10 + (c.toNat - 48)) 0

/-- Python `int(s)` for a string matching `-?\d+`. -/
def parseIntLit (s : String) : Int :=
  match s.toList with
  | '-' :: rest => -(digitsToNat rest : Int)
  | cs => (digitsToNat cs : Int)

/-- Value of digits '.' digits as an exact rational. -/
def decFrac (ds fs : List Char) : Frac :=
  mkFrac (digitsToNat ds * 10 ^ fs.length + digitsToNat fs : Int) (10 ^ fs.length)

/-- Python `float(s)` for a string matching `-?\d+\.\d+` (exact rational). -/
def parseFloatLit (s : String) : Frac :=
  match s.toList with
  | '-' :: rest =>
    Frac.negF (decFrac (rest.takeWhile Char.isDigit)
      (((rest.dropWhile Char.isDigit).drop 1).takeWhile Char.isDigit))
  | cs =>
    decFrac (cs.takeWhile Char.isDigit)
      (((cs.dropWhile Char.isDigit).drop 1).takeWhile Char.isDigit)

/-- Decimal digit character. -/
def digitChar (d : Nat) : Char := Char.ofNat (48 + d)

/-- Decimal digits of a natural number, fuel-structural. -/
def natStrAux : Nat → Nat → List Char → List Char
  | 0, _, acc => acc
  | f + 1, n, acc =>
    if n < 10 then digitChar n :: acc
    else natStrAux f (n / 10) (digitChar (n % 10) :: acc)

/-- Render a natural number in decimal. -/
def natStr (n : Nat) : String := String.mk (natStrAux (n + 1) n [])

/-- Python `str` of an integer. -/
def intStr (n : Int) : String :=
  if n < 0 then "-" ++ natStr n.natAbs else natStr n.natAbs

/-- Least `k` (starting from the third argument) with `d ∣ 10^k`. -/
def find10Aux : Nat → Nat → Nat → Option Nat
  | 0, _, _ => none
  | f + 1, d, k => if (10 ^ k) % d = 0 then some k else find10Aux f d (k + 1)

/-- Least `k ≤ 40` such that `d` divides `10^k`. -/
def find10 (d : Nat) : Option Nat := find10Aux 41 d 0

/-- Remove trailing `'0'` characters. -/
def stripZeros (cs : List Char) : List Char :=
  (cs.reverse.dropWhile (fun c => c = '0')).reverse

/-- Python `repr`/`str` of a float, for rationals with a finite decimal
expansion (all values reachable in the claims); other denominators get a
placeholder. -/
def floatRepr (q : Frac) : String :=
  let sign := if q.num < 0 then "-" else ""
  let n := q.num.natAbs
  let d := q.den
  match find10 d with
  | none => "<float>"
  | some k =>
    let m := n * 10 ^ k / d
    let ip := m / 10 ^ k
    let fp := m % 10 ^ k
    let raw := (natStr fp).toList
    let padded := List.replicate (k - raw.length) '0' ++ raw
    let frac := stripZeros padded
    sign ++ natStr ip ++ "." ++ String.mk (if frac.isEmpty then ['0'] else frac)

/-- Python `str` of a stored value (used by `print` f-strings and by the
substitution step of assignment / expression evaluation). -/
def pyStr : Value → String
  | .int n => intStr n
  | .float q => floatRepr q

/-! ## Python-style string helpers (`strip`, `split`, join) -/

/-- Python `str.strip()`. -/
def pyStrip (s : String) : String :=
  String.mk (((s.toList.dropWhile Char.isWhitespace).reverse.dropWhile
    Char.isWhitespace).reverse)

/-- Accumulating worker for `pySplit`. -/
def pySplitAux : List Char → List Char → List String
  | [], acc => if acc.isEmpty then [] else [String.mk acc.reverse]
  | c :: rest, acc =>
    if c.isWhitespace then
      if acc.isEmpty then pySplitAux rest []
      else String.mk acc.reverse :: pySplitAux rest []
    else pySplitAux rest (c :: acc)

/-- Python `str.split()`: split on whitespace runs, dropping empties. -/
def pySplit (s : String) : List String := pySplitAux s.toList []

/-- Python `" ".join(l)`. -/
def joinSp : List String → String
  | [] => ""
  | [s] => s
  | s :: rest => s ++ " " ++ joinSp rest

/-! ## Tokens and the tokenizer

The source scans a line with one combined regex whose alternatives are
tried in order at each position: `KEYWORD` (`\bBEG\b|\bPRINT\b|EXIT!`),
`IDENT`, `NUMBER` (`-?\d+(\.\d+)?`), `OPERATOR`, `ASSIGN`, `WHITESPACE`,
`UNKNOWN` (any other character, which makes `tokenize` raise
`SNOLUnknownCommandError`).  The scanner below threads the previous
character to decide the `\b` word boundaries. -/

/-- Token kinds (`WHITESPACE` produces no token, `UNKNOWN` raises). -/
inductive TKind where
  | keyword
  | ident
  | number
  | operator
  | assign
deriving DecidableEq, Repr

/-- One lexical token: kind plus exact matched text. -/
structure Token where
  kind : TKind
  value : String
deriving DecidableEq, Repr

/-- Word boundary holds before a word character at this position. -/
def wordB : Option Char → Bool
  | none => true
  | some c => !isWordChar c

/-- Word boundary holds after a word character, i.e. next is absent or
not a word character. -/
def boundaryAfter : List Char → Bool
  | [] => true
  | c :: _ => !isWordChar c

/-- Last character of the run `c :: l`. -/
def lastOfRun (c : Char) : List Char → Char
  | [] => c
  | d :: ds => lastOfRun d ds

/-- Head is a digit. -/
def digitHead : List Char → Bool
  | [] => false
  | c :: _ => c.isDigit

/-- Scan a `NUMBER` lexeme: `sgn` is the optional sign already consumed,
`c` the first digit, `rest` the remaining characters. -/
def numToken (sgn : List Char) (c : Char) (rest : List Char) :
    Token × Option Char × List Char :=
  let ds := c :: rest.takeWhile Char.isDigit
  let r1 := rest.dropWhile Char.isDigit
  match r1 with
  | '.' :: r2 =>
    if digitHead r2 then
      let fs := r2.takeWhile Char.isDigit
      (⟨.number, String.mk (sgn ++ ds ++ '.' :: fs)⟩,
       some (lastOfRun '.' fs), r2.dropWhile Char.isDigit)
    else (⟨.number, String.mk (sgn ++ ds)⟩, some (lastOfRun c (rest.takeWhile Char.isDigit)), r1)
  | _ => (⟨.number, String.mk (sgn ++ ds)⟩, some (lastOfRun c (rest.takeWhile Char.isDigit)), r1)

/-- One step of the scanner: returns the produced token (none for a
whitespace run), the new previous character, and the rest of the input.
The branch order mirrors the regex alternation order. -/
def scanStep (prev : Option Char) (cs : List Char) :
    Except SNOLError (Option Token × Option Char × List Char) :=
  match cs with
  | [] => .error .unknownCommand
  | c :: rest =>
    if listPre "BEG".toList cs && wordB prev && boundaryAfter (cs.drop 3) then
      .ok (some ⟨.keyword, "BEG"⟩, some 'G', cs.drop 3)
    else if listPre "PRINT".toList cs && wordB prev && boundaryAfter (cs.drop 5) then
      .ok (some ⟨.keyword, "PRINT"⟩, some 'T', cs.drop 5)
    else if listPre "EXIT!".toList cs then
      .ok (some ⟨.keyword, "EXIT!"⟩, some '!', cs.drop 5)
    else if c.isAlpha then
      .ok (some ⟨.ident, String.mk (c :: rest.takeWhile Char.isAlphanum)⟩,
           some (lastOfRun c (rest.takeWhile Char.isAlphanum)),
           rest.dropWhile Char.isAlphanum)
    else if c.isDigit then
      let (t, p, r) := numToken [] c rest
      .ok (some t, p, r)
    else if c = '-' && digitHead rest then
      match rest with
      | d :: rest' =>
        let (t, p, r) := numToken ['-'] d rest'
        .ok (some t, p, r)
      | [] => .error .unknownCommand
    else if c = '+' || c = '-' || c = '*' || c = '/' || c = '%' then
      .ok (some ⟨.operator, String.mk [c]⟩, some c, rest)
    else if c = '=' then
      .ok (some ⟨.assign, "="⟩, some c, rest)
    else if c.isWhitespace then
      .ok (none, some (lastOfRun c (rest.takeWhile Char.isWhitespace)),
           rest.dropWhile Char.isWhitespace)
    else .error .unknownCommand

/-- Fuel-driven scanner loop. -/
def scanAux : Nat → Option Char → List Char → Except SNOLError (List Token)
  | _, _, [] => .ok []
  | 0, _, _ :: _ => .error .unknownCommand
  | f + 1, prev, c :: rest =>
    match scanStep prev (c :: rest) with
    | .error e => .error e
    | .ok (t?, p', cs') =>
      match scanAux f p' cs' with
      | .error e => .error e
      | .ok ts =>
        .ok (match t? with
             | some t => t :: ts
             | none => ts)

/-- The tokenizer `tokenize(line)`. -/
def tokenize (line : String) : Except SNOLError (List Token) :=
  scanAux (line.toList.length + 1) none line.toList

/-! ## Commands and the parser -/

/-- The five command variants. -/
inductive Command where
  | begCmd (var : String)
  | printCmd (operand : String)
  | assignCmd (var : String) (expr : String)
  | exprCmd (expr : String)
  | exitCmd
deriving DecidableEq, Repr

/-- `BegCommand.__init__`: re-validate the name against the identifier
grammar, raising `SNOLInvalidVariableError` on failure (not caught in the
`BEG` branch of `parse`). -/
def mkBeg (v : String) : Except SNOLError Command :=
  if matchIdentStr v then .ok (.begCmd v) else .error (.invalidVariable v)

/-- Index of the first token whose lexeme is `=`. -/
def firstEqIdx : List Token → Nat
  | [] => 0
  | t :: ts => if t.value = "=" then 0 else firstEqIdx ts + 1

/-- The parser `parse(tokens)`.  Faithful to the source, including the
`try/except` in the assignment branch which converts the internally raised
`SNOLInvalidVariableError` into a bare `SNOLSyntaxError()`. -/
def parse (ts : List Token) : Except SNOLError Command :=
  match ts with
  | [] => .error .unknownCommand
  | t0 :: rest =>
    if t0.kind = TKind.keyword ∧ t0.value = "EXIT!" then
      if rest = [] then .ok .exitCmd
      else .error (.syntaxError "EXIT! must be used alone")
    else if t0.kind = TKind.keyword ∧ t0.value = "BEG" then
      match rest with
      | [t1] => if t1.kind = TKind.ident then mkBeg t1.value else .error (.syntaxError "")
      | _ => .error (.syntaxError "")
    else if t0.kind = TKind.keyword ∧ t0.value = "PRINT" then
      match rest with
      | [t1] => .ok (.printCmd t1.value)
      | _ => .error (.syntaxError "")
    else if t0.kind = TKind.operator then .error .unknownCommand
    else if rest.any (fun t => t.kind == TKind.keyword) then .error .unknownCommand
    else if ((t0 :: rest).map Token.value).contains "=" then
      match (t0 :: rest).take (firstEqIdx (t0 :: rest)) with
      | [v0] =>
        if v0.kind = TKind.ident ∧ matchIdentStr v0.value then
          .ok (.assignCmd v0.value
            (joinSp (((t0 :: rest).drop (firstEqIdx (t0 :: rest) + 1)).map Token.value)))
        else .error (.syntaxError "")
      | _ => .error (.syntaxError "")
    else .ok (.exprCmd (joinSp ((t0 :: rest).map Token.value)))

/-! ## Model of Python `eval` on the reassembled expression text

The source joins the substituted tokens with spaces and hands the string
to `eval`.  Python re-lexes that string, so e.g. `"2 -3"` evaluates to
`-1`.  We model the relevant fragment: decimal int/float literals
(decimal ints may not have leading zeros, except a run of zeros), the
binary operators `+ - * / %` with Python precedence, and prefix `+`/`-`.
True division always produces a float; `%` is Python's floored modulus. -/

/-- Item of the re-lexed expression text. -/
inductive PyTok where
  | num (v : Value)
  | add
  | sub
  | mul
  | div
  | mod
deriving DecidableEq, Repr

/-- Python decimal integer literals forbid leading zeros unless the whole
literal is a run of zeros. -/
def intLitOk (ds : List Char) : Bool :=
  match ds with
  | '0' :: _ :: _ => ds.all (fun c => c = '0')
  | _ => true

/-- Lexer for the fragment of Python expressions reachable here. -/
def pyLexAux : Nat → List Char → List PyTok → Option (List PyTok)
  | 0, _, _ => none
  | _ + 1, [], acc => some acc.reverse
  | f + 1, c :: rest, acc =>
    if c.isWhitespace then pyLexAux f rest acc
    else if c = '+' then pyLexAux f rest (.add :: acc)
    else if c = '-' then pyLexAux f rest (.sub :: acc)
    else if c = '*' then pyLexAux f rest (.mul :: acc)
    else if c = '/' then pyLexAux f rest (.div :: acc)
    else if c = '%' then pyLexAux f rest (.mod :: acc)
    else if c.isDigit then
      let ds := c :: rest.takeWhile Char.isDigit
      let r1 := rest.dropWhile Char.isDigit
      match r1 with
      | '.' :: r2 =>
        pyLexAux f (r2.dropWhile Char.isDigit)
          (.num (.float (decFrac ds (r2.takeWhile Char.isDigit))) :: acc)
      | _ =>
        if intLitOk ds then pyLexAux f r1 (.num (.int (digitsToNat ds : Int)) :: acc)
        else none
    else if c = '.' && digitHead rest then
      pyLexAux f (rest.dropWhile Char.isDigit)
        (.num (.float (decFrac [] (rest.takeWhile Char.isDigit))) :: acc)
    else none

/-- Lex the expression text. -/
def pyLex (s : String) : Option (List PyTok) :=
  pyLexAux (s.toList.length + 1) s.toList []

/-- Both operands as rationals. -/
def toFrac : Value → Frac
  | .int n => Frac.ofInt n
  | .float q => q

/-- Python `+` on numbers. -/
def vadd : Value → Value → Value
  | .int a, .int b => .int (a + b)
  | a, b => .float (Frac.addF (toFrac a) (toFrac b))

/-- Python binary `-` on numbers. -/
def vsub : Value → Value → Value
  | .int a, .int b => .int (a - b)
  | a, b => .float (Frac.subF (toFrac a) (toFrac b))

/-- Python `*` on numbers. -/
def vmul : Value → Value → Value
  | .int a, .int b => .int (a * b)
  | a, b => .float (Frac.mulF (toFrac a) (toFrac b))

/-- Python unary `-`. -/
def vneg : Value → Value
  | .int n => .int (-n)
  | .float q => .float (Frac.negF q)

/-- Python `/`: true division, always a float; division by zero raises. -/
def vdiv (a b : Value) : Option Value :=
  if Frac.isZero (toFrac b) then none
  else some (.float (Frac.divF (toFrac a) (toFrac b)))

/-- Python `%`: floored modulus (sign of the divisor); zero divisor raises. -/
def vmod : Value → Value → Option Value
  | .int a, .int b => if b = 0 then none else some (.int (Int.fmod a b))
  | a, b =>
    if Frac.isZero (toFrac b) then none
    else
      some (.float (Frac.subF (toFrac a)
        (Frac.mulF (Frac.ofInt (Frac.floorF (Frac.divF (toFrac a) (toFrac b))))
          (toFrac b))))

/-- Atom of the expression grammar: prefix signs applied to a literal. -/
def parseAtom : Nat → List PyTok → Option (Value × List PyTok)
  | 0, _ => none
  | _ + 1, .num v :: rest => some (v, rest)
  | f + 1, .sub :: rest =>
    match parseAtom f rest with
    | some (v, r) => some (vneg v, r)
    | none => none
  | f + 1, .add :: rest => parseAtom f rest
  | _ + 1, _ => none

/-- Left-associative `* / %` chain continuation. -/
def termLoop : Nat → Value → List PyTok → Option (Value × List PyTok)
  | 0, _, _ => none
  | f + 1, acc, .mul :: rest =>
    match parseAtom f rest with
    | some (v, r) => termLoop f (vmul acc v) r
    | none => none
  | f + 1, acc, .div :: rest =>
    match parseAtom f rest with
    | some (v, r) =>
      match vdiv acc v with
      | some x => termLoop f x r
      | none => none
    | none => none
  | f + 1, acc, .mod :: rest =>
    match parseAtom f rest with
    | some (v, r) =>
      match vmod acc v with
      | some x => termLoop f x r
      | none => none
    | none => none
  | _ + 1, acc, rest => some (acc, rest)

/-- A term: an atom followed by `* / %` continuations. -/
def parseTerm : Nat → List PyTok → Option (Value × List PyTok)
  | 0, _ => none
  | f + 1, ts =>
    match parseAtom f ts with
    | some (v, r) => termLoop f v r
    | none => none

/-- Left-associative `+ -` chain continuation. -/
def arithLoop : Nat → Value → List PyTok → Option (Value × List PyTok)
  | 0, _, _ => none
  | f + 1, acc, .add :: rest =>
    match parseTerm f rest with
    | some (v, r) => arithLoop f (vadd acc v) r
    | none => none
  | f + 1, acc, .sub :: rest =>
    match parseTerm f rest with
    | some (v, r) => arithLoop f (vsub acc v) r
    | none => none
  | _ + 1, acc, rest => some (acc, rest)

/-- A full arithmetic expression. -/
def parseArith : Nat → List PyTok → Option (Value × List PyTok)
  | 0, _ => none
  | f + 1, ts =>
    match parseTerm f ts with
    | some (v, r) => arithLoop f v r
    | none => none

/-- Model of Python `eval(s)` for the reachable expression fragment. -/
def pyEval (s : String) : Option Value :=
  match pyLex s with
  | none => none
  | some items =>
    match parseArith (items.length * 3 + 10) items with
    | some (v, []) => some v
    | _ => none

/-! ## The Task-2 functions -/

/-- `task2_beg_variable(var, value)`: parse the entered text with
`-?\d+` (int) else `-?\d+\.\d+` (float) and store, else raise
`SNOLSyntaxError`. -/
def task2_beg_variable (st : Store) (var value : String) : Except SNOLError Store :=
  if matchIntStr value then .ok (setVar st var (.int (parseIntLit value)))
  else if matchFloatStr value then .ok (setVar st var (.float (parseFloatLit value)))
  else .error (.syntaxError ("Invalid input for variable [" ++ var ++ "]"))

/-- `task2_print_variable(operand)`: stored variable, else bare numeric
literal echo, else `SNOLSyntaxError` with a "not found" message.  The
store is not touched and the evaluator is not consulted. -/
def task2_print_variable (st : Store) (operand : String) : Except SNOLError String :=
  match lookupVar st operand with
  | some v => .ok ("SNOL> [" ++ operand ++ "] = " ++ pyStr v)
  | none =>
    if matchNumStr operand then .ok ("SNOL> [literal] = [" ++ operand ++ "]")
    else .error (.syntaxError ("Variable [" ++ operand ++ "] not found."))

/-- Replace tokens matching the identifier grammar by `str` of their
stored value; `none` when a variable is missing. -/
def substTokens (st : Store) : List String → Option (List String)
  | [] => some []
  | t :: ts =>
    if matchIdentStr t then
      match lookupVar st t with
      | none => none
      | some v => (substTokens st ts).map (fun l => pyStr v :: l)
    else (substTokens st ts).map (fun l => t :: l)

/-- `task2_assign_variable(var, expr)`: substitute variables, `eval` the
joined text, store the result.  Every failure inside the `try` (missing
variable, invalid expression) is caught and re-raised as
`SNOLSyntaxError("Invalid expression in assignment.")`.  No type
homogeneity check is performed. -/
def task2_assign_variable (st : Store) (var expr : String) : Except SNOLError Store :=
  match substTokens st (pySplit expr) with
  | none => .error (.syntaxError "Invalid expression in assignment.")
  | some toks =>
    match pyEval (joinSp toks) with
    | none => .error (.syntaxError "Invalid expression in assignment.")
    | some v => .ok (setVar st var v)

/-- Result of the substitution/type-collection loop of
`task2_eval_expression`. -/
inductive SubstRes where
  | undef (v : String)
  | subst (toks : List String) (hasInt hasFloat : Bool)
deriving DecidableEq, Repr

/-- The substitution loop of `task2_eval_expression`: resolve identifiers
(recording their runtime type), classify numeric literals by regex, pass
everything else through. -/
def evalSubstTypes (st : Store) : List String → SubstRes
  | [] => .subst [] false false
  | t :: ts =>
    if matchIdentStr t then
      match lookupVar st t with
      | none => .undef t
      | some v =>
        match evalSubstTypes st ts with
        | .undef u => .undef u
        | .subst l hi hf =>
          match v with
          | .int _ => .subst (pyStr v :: l) true hf
          | .float _ => .subst (pyStr v :: l) hi true
    else if matchFloatStr t then
      match evalSubstTypes st ts with
      | .undef u => .undef u
      | .subst l hi _ => .subst (t :: l) hi true
    else if matchIntStr t then
      match evalSubstTypes st ts with
      | .undef u => .undef u
      | .subst l _ hf => .subst (t :: l) true hf
    else
      match evalSubstTypes st ts with
      | .undef u => .undef u
      | .subst l hi hf => .subst (t :: l) hi hf

/-- `task2_eval_expression(expr)`: an undefined identifier or a mixed
int/float operand set produces a printed diagnostic and a normal return
(the store is never touched, the result is discarded); an `eval` failure
raises `SNOLSyntaxError("Invalid expression.")`. -/
def task2_eval_expression (st : Store) (expr : String) : Except SNOLError (List String) :=
  match evalSubstTypes st (pySplit expr) with
  | .undef v => .ok ["SNOL> Error! [" ++ v ++ "] is not defined!"]
  | .subst toks hasInt hasFloat =>
    if hasInt && hasFloat then
      .ok ["SNOL> Error! Operands must be of the same type in an\narithmetic operation!"]
    else
      match pyEval (joinSp toks) with
      | none => .error (.syntaxError "Invalid expression.")
      | some _ => .ok []

/-! ## The REPL driver -/

/-- Python `k in line` over the three keyword strings: the count of
distinct keywords occurring as substrings. -/
def kwCount (line : String) : Nat :=
  (if subOccurs "BEG".toList line.toList then 1 else 0) +
  (if subOccurs "PRINT".toList line.toList then 1 else 0) +
  (if subOccurs "EXIT!".toList line.toList then 1 else 0)

/-- `has_multiple_keywords(line)`. -/
def hasMultipleKeywords (line : String) : Bool := kwCount line > 1

/-- REPL handler messages for the SNOL exception classes. -/
def errOut : SNOLError → String
  | .invalidVariable v => "SNOL> Unknown word [" ++ v ++ "]"
  | .syntaxError _ => "SNOL> Unknown command! Does not match any valid command of the language."
  | .unknownCommand => "SNOL> Unknown command! Does not match any valid command of the language."

/-- Execute a non-exit command: printed lines plus the store result (an
`Except` failure models a raised SNOL exception; the prompt of `BEG` is
printed before the input is read). -/
def execCommand (st : Store) (c : Command) (inp : String) :
    List String × Except SNOLError Store :=
  match c with
  | .begCmd v =>
    (["SNOL> Please enter value for [" ++ v ++ "]"],
     task2_beg_variable st v (pyStrip inp))
  | .printCmd op =>
    match task2_print_variable st op with
    | .ok line => ([line], .ok st)
    | .error e => ([], .error e)
  | .assignCmd v e => ([], task2_assign_variable st v e)
  | .exprCmd e =>
    match task2_eval_expression st e with
    | .ok msgs => (msgs, .ok st)
    | .error err => ([], .error err)
  | .exitCmd => ([], .ok st)

/-- Result of processing one REPL line. -/
structure ProcResult where
  out : List String
  store : Store
  exited : Bool
deriving DecidableEq, Repr

/-- One iteration of `SNOLInterpreter.run`: strip the line, reject
multi-keyword lines before tokenizing, then tokenize, parse and execute,
converting raised SNOL exceptions into diagnostics.  `inp` is the text
the user would type at the `Input:` prompt of a `BEG` command. -/
def processLine (st : Store) (rawLine inp : String) : ProcResult :=
  if pyStrip rawLine = "" then ⟨[], st, false⟩
  else if hasMultipleKeywords (pyStrip rawLine) then
    ⟨["SNOL> Only one command per line is allowed."], st, false⟩
  else
    match tokenize (pyStrip rawLine) with
    | .error e => ⟨[errOut e], st, false⟩
    | .ok ts =>
      match parse ts with
      | .error e => ⟨[errOut e], st, false⟩
      | .ok .exitCmd => ⟨["Interpreter is now terminated..."], st, true⟩
      | .ok c =>
        match execCommand st c inp with
        | (outs, .ok st') => ⟨outs, st', false⟩
        | (outs, .error e) => ⟨outs ++ [errOut e], st, false⟩

/-- Run a sequence of (command line, `BEG` input) pairs from a store,
stopping after an exit. -/
def runLines : Store → List (String × String) → Store
  | st, [] => st
  | st, (l, i) :: rest =>
    let r := processLine st l i
    if r.exited then r.store else runLines r.store rest

/-- A legal store key: matches the identifier grammar and is not a
reserved keyword lexeme. -/
def goodKey (k : String) : Prop :=
  matchIdentStr k = true ∧ k ≠ "BEG" ∧ k ≠ "PRINT" ∧ k ≠ "EXIT!"

/-- Every key of the store is legal. -/
def goodStore (st : Store) : Prop := ∀ kv ∈ st, goodKey kv.1

/-! # Theorems for the claims -/

/-- Claim C2: after `BEG x` with input `5`, `PRINT x` outputs exactly
`SNOL> [x] = 5`; after `BEG x` with input `5.0`, `PRINT x` outputs
exactly `SNOL> [x] = 5.0` — integer input reads back as integer text,
float input as float text. -/
theorem claim_C2 :
    processLine [] "BEG x" "5" =
      ⟨["SNOL> Please enter value for [x]"], [("x", Value.int 5)], false⟩ ∧
    processLine [("x", Value.int 5)] "PRINT x" "" =
      ⟨["SNOL> [x] = 5"], [("x", Value.int 5)], false⟩ ∧
    processLine [] "BEG x" "5.0" =
      ⟨["SNOL> Please enter value for [x]"], [("x", Value.float ⟨5, 1⟩)], false⟩ ∧
    processLine [("x", Value.float ⟨5, 1⟩)] "PRINT x" "" =
      ⟨["SNOL> [x] = 5.0"], [("x", Value.float ⟨5, 1⟩)], false⟩ := by
  refine ⟨?_, ?_, ?_, ?_⟩ <;> rfl

/-- Claim C7: `EXIT!` parses to the exit command exactly when it is the
only token, terminating the loop whatever the store holds; trailing
tokens make the parse fail with `SyntaxError`, and the interpreter does
not exit. -/
theorem claim_C7 :
    (parse [⟨TKind.keyword, "EXIT!"⟩] = .ok .exitCmd) ∧
    (∀ t ts, parse (⟨TKind.keyword, "EXIT!"⟩ :: t :: ts) =
      .error (.syntaxError "EXIT! must be used alone")) ∧
    (∀ st inp, processLine st "EXIT!" inp =
      ⟨["Interpreter is now terminated..."], st, true⟩) ∧
    (∀ st inp, processLine st "EXIT! now" inp =
      ⟨["SNOL> Unknown command! Does not match any valid command of the language."],
        st, false⟩) := by
  refine ⟨rfl, fun t ts => rfl, fun st inp => rfl, fun st inp => rfl⟩

/-- Claim C3 counterexample: a line repeating the same keyword twice is
NOT rejected with the one-command-per-line message (the check counts
distinct keywords only), contrary to the claim. -/
theorem claim_C3_cex :
    hasMultipleKeywords "BEG x BEG y" = false ∧
    (processLine [] "BEG x BEG y" "").out ≠
      ["SNOL> Only one command per line is allowed."] := by
  exact ⟨rfl, by decide⟩

/-- Claim C4 counterexample: `BEG x` with input `-5` succeeds and stores
Integer `-5`, contrary to the claim that any input with a leading `-`
fails. -/
theorem claim_C4_cex :
    task2_beg_variable [] "x" "-5" = .ok [("x", Value.int (-5))] := by
  rfl

/-- Claim C5 counterexample: `PRINT z` on an unknown operand raises the
same `SNOLSyntaxError` class as structural syntax errors (there is no
distinct VariableNotFound kind), and the REPL reports it with the very
same generic diagnostic as a structurally invalid command such as
`BEG 5`. -/
theorem claim_C5_cex :
    task2_print_variable [] "z" = .error (.syntaxError "Variable [z] not found.") ∧
    (∀ m, task2_print_variable [] "z" ≠ .error .unknownCommand ∧
          task2_print_variable [] "z" ≠ .error (.invalidVariable m)) ∧
    (processLine [] "PRINT z" "").out = (processLine [] "BEG 5" "").out := by
  have h : task2_print_variable [] "z" =
      .error (.syntaxError "Variable [z] not found.") := rfl
  refine ⟨h, fun m => ⟨by rw [h]; simp, by rw [h]; simp⟩, rfl⟩

/-- Claim C6 counterexample: when the portion before `=` is not one
identifier token, `parse` fails with a bare `SyntaxError`, not with
`InvalidVariableName` — the internally raised invalid-variable error is
swallowed by the `except Exception` clause. -/
theorem claim_C6_cex :
    parse [⟨TKind.number, "1"⟩, ⟨TKind.assign, "="⟩, ⟨TKind.number, "2"⟩] =
      .error (.syntaxError "") ∧
    (∀ m, parse [⟨TKind.number, "1"⟩, ⟨TKind.assign, "="⟩, ⟨TKind.number, "2"⟩] ≠
      .error (.invalidVariable m)) := by
  have h : parse [⟨TKind.number, "1"⟩, ⟨TKind.assign, "="⟩, ⟨TKind.number, "2"⟩] =
      .error (.syntaxError "") := rfl
  refine ⟨h, fun m => by rw [h]; simp⟩

/-- Claim C8 counterexample: `z = 4 / 2` has only Integer operands, yet
the stored value is Float `2.0` (Python true division), contrary to the
claim that all-Integer assignments store an Integer. -/
theorem claim_C8_cex :
    task2_assign_variable [] "z" "4 / 2" = .ok [("z", Value.float ⟨2, 1⟩)] ∧
    (∀ n, task2_assign_variable [] "z" "4 / 2" ≠ .ok [("z", Value.int n)]) := by
  have h : task2_assign_variable [] "z" "4 / 2" =
      .ok [("z", Value.float ⟨2, 1⟩)] := rfl
  refine ⟨h, fun n => by rw [h]; simp⟩

/-- Claim C3 (amended): a line in which at least two DISTINCT keyword
lexemes occur as substrings is rejected up front, before tokenization,
with the one-command-per-line message; a repetition of a single keyword
does not trigger the rejection (see the counterexample). -/
theorem claim_C3 (st : Store) (line inp : String)
    (h : 2 ≤ kwCount (pyStrip line)) :
    processLine st line inp =
      ⟨["SNOL> Only one command per line is allowed."], st, false⟩ := by
  have hne : ¬ pyStrip line = "" := by
    intro he
    rw [he] at h
    exact absurd h (by decide)
  have hm : hasMultipleKeywords (pyStrip line) = true := by
    unfold hasMultipleKeywords
    simp only [decide_eq_true_eq]
    omega
  unfold processLine
  rw [if_neg hne, if_pos (by rw [hm])]

/-- Witness for C3 on the concrete line `BEG PRINT`. -/
theorem claim_C3_wit :
    2 ≤ kwCount (pyStrip "BEG PRINT") ∧
    processLine [] "BEG PRINT" "" =
      ⟨["SNOL> Only one command per line is allowed."], [], false⟩ :=
  ⟨by decide, claim_C3 [] "BEG PRINT" "" (by decide)⟩

/-- Claim C4 (amended): `BEG` input is parsed as Integer exactly when it
matches `-?\d+` (an optional leading `-` IS accepted, contrary to the
original claim), as Float exactly when it matches `-?\d+\.\d+`, and any
other shape raises `SNOLSyntaxError`, storing nothing. -/
theorem claim_C4 (st : Store) (var value : String) :
    (matchIntStr value = true →
      task2_beg_variable st var value =
        .ok (setVar st var (.int (parseIntLit value)))) ∧
    (matchIntStr value = false → matchFloatStr value = true →
      task2_beg_variable st var value =
        .ok (setVar st var (.float (parseFloatLit value)))) ∧
    (matchIntStr value = false → matchFloatStr value = false →
      task2_beg_variable st var value =
        .error (.syntaxError ("Invalid input for variable [" ++ var ++ "]"))) := by
  refine ⟨fun h1 => by simp [task2_beg_variable, h1],
    fun h1 h2 => by simp [task2_beg_variable, h1, h2],
    fun h1 h2 => by simp [task2_beg_variable, h1, h2]⟩

/-- Witness for C4 at the float input `3.5`. -/
theorem claim_C4_wit :
    matchIntStr "3.5" = false ∧ matchFloatStr "3.5" = true ∧
    task2_beg_variable [] "x" "3.5" = .ok [("x", Value.float ⟨7, 2⟩)] := by
  have h := (claim_C4 [] "x" "3.5").2.1 rfl rfl
  exact ⟨rfl, rfl, h.trans rfl⟩

/-- Claim C5 (amended): `PRINT` on an operand that is neither stored nor
a bare numeric literal raises `SNOLSyntaxError` carrying the message
`Variable [..] not found.` (the code has no separate VariableNotFound
kind); `PRINT` on a bare numeric literal not in the store succeeds and
echoes the literal, without consulting the evaluator or the store
contents beyond the lookup. -/
theorem claim_C5 (st : Store) (op : String) :
    (lookupVar st op = none → matchNumStr op = false →
      task2_print_variable st op =
        .error (.syntaxError ("Variable [" ++ op ++ "] not found."))) ∧
    (lookupVar st op = none → matchNumStr op = true →
      task2_print_variable st op = .ok ("SNOL> [literal] = [" ++ op ++ "]")) := by
  refine ⟨fun h1 h2 => ?_, fun h1 h2 => ?_⟩ <;>
    simp [task2_print_variable, h1, h2]

/-- Witness for C5 at the bare literal `42`. -/
theorem claim_C5_wit :
    lookupVar [] "42" = none ∧ matchNumStr "42" = true ∧
    task2_print_variable [] "42" = .ok "SNOL> [literal] = [42]" := by
  have h := (claim_C5 [] "42").2 rfl rfl
  exact ⟨rfl, rfl, h.trans rfl⟩

/-- Claim C6 (amended): for a non-keyword-initial token sequence
containing `=`, if the portion before the first `=` is exactly one
Identifier token (whose lexeme passes the identifier grammar re-check of
the `AssignCommand` constructor), the parse yields `Assign` with the
space-joined lexemes after the `=`; in every other case the parse fails
with a bare `SyntaxError` — NOT with `InvalidVariableName`, because the
`except Exception` clause converts the internally raised
invalid-variable error (see the counterexample). -/
theorem claim_C6 (t0 : Token) (rest : List Token)
    (hk1 : ¬(t0.kind = TKind.keyword ∧ t0.value = "EXIT!"))
    (hk2 : ¬(t0.kind = TKind.keyword ∧ t0.value = "BEG"))
    (hk3 : ¬(t0.kind = TKind.keyword ∧ t0.value = "PRINT"))
    (hop : ¬ t0.kind = TKind.operator)
    (hkw : (rest.any fun t => t.kind == TKind.keyword) = false)
    (hc : ((t0 :: rest).map Token.value).contains "=" = true) :
    (∀ v0, (t0 :: rest).take (firstEqIdx (t0 :: rest)) = [v0] →
      v0.kind = TKind.ident → matchIdentStr v0.value = true →
      parse (t0 :: rest) = .ok (.assignCmd v0.value
        (joinSp (((t0 :: rest).drop (firstEqIdx (t0 :: rest) + 1)).map Token.value)))) ∧
    (∀ v0, (t0 :: rest).take (firstEqIdx (t0 :: rest)) = [v0] →
      ¬(v0.kind = TKind.ident ∧ matchIdentStr v0.value = true) →
      parse (t0 :: rest) = .error (.syntaxError "")) ∧
    ((t0 :: rest).take (firstEqIdx (t0 :: rest)) = [] ∨
       2 ≤ ((t0 :: rest).take (firstEqIdx (t0 :: rest))).length →
      parse (t0 :: rest) = .error (.syntaxError "")) := by
  have hred : parse (t0 :: rest) =
      (match (t0 :: rest).take (firstEqIdx (t0 :: rest)) with
       | [v0] =>
         if v0.kind = TKind.ident ∧ matchIdentStr v0.value then
           .ok (.assignCmd v0.value
             (joinSp (((t0 :: rest).drop (firstEqIdx (t0 :: rest) + 1)).map Token.value)))
         else .error (.syntaxError "")
       | _ => .error (.syntaxError "")) := by
    simp only [parse]
    rw [if_neg hk1, if_neg hk2, if_neg hk3, if_neg hop,
      if_neg (by rw [hkw]; exact Bool.false_ne_true), if_pos hc]
  refine ⟨fun v0 htake hkind hmatch => ?_, fun v0 htake hne => ?_, fun hlen => ?_⟩
  · rw [hred, htake]
    exact if_pos ⟨hkind, hmatch⟩
  · rw [hred, htake]
    exact if_neg hne
  · rcases hlen with h | h
    · rw [hred, h]
    · rcases hl : (t0 :: rest).take (firstEqIdx (t0 :: rest)) with _ | ⟨a, _ | ⟨b, t⟩⟩
      · rw [hred, hl]
      · rw [hl] at h; exact absurd h (by simp)
      · rw [hred, hl]

/-- Witness for C6: `x = 5` parses to an assignment. -/
theorem claim_C6_wit :
    parse [⟨TKind.ident, "x"⟩, ⟨TKind.assign, "="⟩, ⟨TKind.number, "5"⟩] =
      .ok (.assignCmd "x" "5") := by
  have h := (claim_C6 ⟨TKind.ident, "x"⟩ [⟨TKind.assign, "="⟩, ⟨TKind.number, "5"⟩]
    (by simp) (by simp) (by simp) (by simp) rfl rfl).1
    ⟨TKind.ident, "x"⟩ rfl rfl rfl
  exact h.trans rfl

/-- Claim C1: with `x` bound to Integer 3 and `y` to Float 2.0, the bare
expression `x + y` prints the mixed-type diagnostic and stores nothing,
while the assignment `z = x + y` succeeds and stores Float 5.0; in
general the Assign path stores the evaluated result whenever
substitution and evaluation succeed, with no Integer/Float homogeneity
check at all. -/
theorem claim_C1 :
    (task2_eval_expression [("x", Value.int 3), ("y", Value.float ⟨2, 1⟩)] "x + y" =
      .ok ["SNOL> Error! Operands must be of the same type in an\narithmetic operation!"]) ∧
    ((processLine [("x", Value.int 3), ("y", Value.float ⟨2, 1⟩)] "x + y" "").store =
      [("x", Value.int 3), ("y", Value.float ⟨2, 1⟩)]) ∧
    (task2_assign_variable [("x", Value.int 3), ("y", Value.float ⟨2, 1⟩)] "z" "x + y" =
      .ok [("x", Value.int 3), ("y", Value.float ⟨2, 1⟩), ("z", Value.float ⟨5, 1⟩)]) ∧
    (∀ st var expr toks v, substTokens st (pySplit expr) = some toks →
      pyEval (joinSp toks) = some v →
      task2_assign_variable st var expr = .ok (setVar st var v)) := by
  refine ⟨rfl, rfl, rfl, fun st var expr toks v h1 h2 => ?_⟩
  simp only [task2_assign_variable, h1, h2]

/-- Witness for C1's general clause, instantiated at `w = 1 + 2`. -/
theorem claim_C1_wit :
    task2_assign_variable [("x", Value.int 3), ("y", Value.float ⟨2, 1⟩)] "w" "1 + 2" =
      .ok [("x", Value.int 3), ("y", Value.float ⟨2, 1⟩), ("w", Value.int 3)] := by
  have h := claim_C1.2.2.2 [("x", Value.int 3), ("y", Value.float ⟨2, 1⟩)] "w" "1 + 2"
    ["1", "+", "2"] (Value.int 3) rfl rfl
  exact h.trans rfl

/-! ## Integer preservation through the expression evaluator (claim C8) -/

/-- An evaluator item that keeps an all-Integer computation Integer:
an Integer literal or any operator except `/`. -/
def intItem : PyTok → Bool
  | .num (.int _) => true
  | .num (.float _) => false
  | .div => false
  | _ => true

/-- `parseAtom` on integer-only items yields an Integer and leaves
integer-only items. -/
theorem parseAtom_int (f : Nat) : ∀ ts v r, (∀ it ∈ ts, intItem it = true) →
    parseAtom f ts = some (v, r) →
    (∃ n, v = Value.int n) ∧ (∀ it ∈ r, intItem it = true) := by
  induction f with
  | zero => intro ts v r _ h; exact absurd h (by simp [parseAtom])
  | succ f ih =>
    intro ts v r hall h
    cases ts with
    | nil => exact absurd h (by simp [parseAtom])
    | cons hd tl =>
      cases hd with
      | num v0 =>
        simp only [parseAtom, Option.some.injEq, Prod.mk.injEq] at h
        obtain ⟨hv, hr⟩ := h
        have hv0 := hall (.num v0) (by simp)
        cases v0 with
        | int n =>
          exact ⟨⟨n, hv.symm⟩, fun it hit => hall it (by rw [← hr] at hit; simp [hit])⟩
        | float q => simp [intItem] at hv0
      | sub =>
        cases hp : parseAtom f tl with
        | none => rw [parseAtom, hp] at h; exact absurd h (by simp)
        | some pr =>
          obtain ⟨v1, r1⟩ := pr
          rw [parseAtom, hp] at h
          simp only [Option.some.injEq, Prod.mk.injEq] at h
          obtain ⟨hv, hr⟩ := h
          obtain ⟨⟨n, hn⟩, hr1⟩ := ih tl v1 r1 (fun it hit => hall it (by simp [hit])) hp
          subst hn
          exact ⟨⟨-n, hv.symm⟩, fun it hit => hr1 it (by rw [hr]; exact hit)⟩
      | add =>
        rw [parseAtom] at h
        exact ih tl v r (fun it hit => hall it (by simp [hit])) h
      | mul => exact absurd h (by simp [parseAtom])
      | div => exact absurd h (by simp [parseAtom])
      | mod => exact absurd h (by simp [parseAtom])

/-- `termLoop` on integer-only items starting from an Integer stays
Integer. -/
theorem termLoop_int (f : Nat) : ∀ acc ts v r, (∃ n, acc = Value.int n) →
    (∀ it ∈ ts, intItem it = true) → termLoop f acc ts = some (v, r) →
    (∃ n, v = Value.int n) ∧ (∀ it ∈ r, intItem it = true) := by
  induction f with
  | zero => intro acc ts v r _ _ h; exact absurd h (by simp [termLoop])
  | succ f ih =>
    intro acc ts v r hacc hall h
    cases ts with
    | nil =>
      simp only [termLoop, Option.some.injEq, Prod.mk.injEq] at h
      exact ⟨h.1 ▸ hacc, fun it hit => by rw [← h.2] at hit; cases hit⟩
    | cons hd tl =>
      cases hd with
      | num v0 =>
        simp only [termLoop, Option.some.injEq, Prod.mk.injEq] at h
        exact ⟨h.1 ▸ hacc, fun it hit => hall it (by rw [← h.2] at hit; exact hit)⟩
      | add =>
        simp only [termLoop, Option.some.injEq, Prod.mk.injEq] at h
        exact ⟨h.1 ▸ hacc, fun it hit => hall it (by rw [← h.2] at hit; exact hit)⟩
      | sub =>
        simp only [termLoop, Option.some.injEq, Prod.mk.injEq] at h
        exact ⟨h.1 ▸ hacc, fun it hit => hall it (by rw [← h.2] at hit; exact hit)⟩
      | mul =>
        cases hp : parseAtom f tl with
        | none => rw [termLoop, hp] at h; exact absurd h (by simp)
        | some pr =>
          obtain ⟨v1, r1⟩ := pr
          rw [termLoop, hp] at h
          obtain ⟨⟨b, hb⟩, hr1⟩ :=
            parseAtom_int f tl v1 r1 (fun it hit => hall it (by simp [hit])) hp
          obtain ⟨a, ha⟩ := hacc
          subst ha hb
          exact ih (Value.int (a * b)) r1 v r ⟨a * b, rfl⟩ hr1 h
      | div =>
        have := hall .div (by simp)
        simp [intItem] at this
      | mod =>
        cases hp : parseAtom f tl with
        | none => rw [termLoop, hp] at h; exact absurd h (by simp)
        | some pr =>
          obtain ⟨v1, r1⟩ := pr
          simp only [termLoop, hp] at h
          obtain ⟨⟨b, hb⟩, hr1⟩ :=
            parseAtom_int f tl v1 r1 (fun it hit => hall it (by simp [hit])) hp
          obtain ⟨a, ha⟩ := hacc
          subst ha hb
          by_cases hb0 : b = 0
          · rw [show vmod (Value.int a) (Value.int b) = none by simp [vmod, hb0]] at h
            exact absurd h (by simp)
          · rw [show vmod (Value.int a) (Value.int b) = some (Value.int (Int.fmod a b)) by
              simp [vmod, hb0]] at h
            exact ih (Value.int (Int.fmod a b)) r1 v r ⟨_, rfl⟩ hr1 h

/-- `parseTerm` on integer-only items yields an Integer. -/
theorem parseTerm_int (f : Nat) (ts : List PyTok) (v : Value) (r : List PyTok)
    (hall : ∀ it ∈ ts, intItem it = true) (h : parseTerm f ts = some (v, r)) :
    (∃ n, v = Value.int n) ∧ (∀ it ∈ r, intItem it = true) := by
  cases f with
  | zero => exact absurd h (by simp [parseTerm])
  | succ f =>
    cases hp : parseAtom f ts with
    | none => rw [parseTerm, hp] at h; exact absurd h (by simp)
    | some pr =>
      obtain ⟨v1, r1⟩ := pr
      rw [parseTerm, hp] at h
      obtain ⟨hv1, hr1⟩ := parseAtom_int f ts v1 r1 hall hp
      exact termLoop_int f v1 r1 v r hv1 hr1 h

/-- `arithLoop` on integer-only items starting from an Integer stays
Integer. -/
theorem arithLoop_int (f : Nat) : ∀ acc ts v r, (∃ n, acc = Value.int n) →
    (∀ it ∈ ts, intItem it = true) → arithLoop f acc ts = some (v, r) →
    (∃ n, v = Value.int n) ∧ (∀ it ∈ r, intItem it = true) := by
  induction f with
  | zero => intro acc ts v r _ _ h; exact absurd h (by simp [arithLoop])
  | succ f ih =>
    intro acc ts v r hacc hall h
    cases ts with
    | nil =>
      simp only [arithLoop, Option.some.injEq, Prod.mk.injEq] at h
      exact ⟨h.1 ▸ hacc, fun it hit => by rw [← h.2] at hit; cases hit⟩
    | cons hd tl =>
      cases hd with
      | num v0 =>
        simp only [arithLoop, Option.some.injEq, Prod.mk.injEq] at h
        exact ⟨h.1 ▸ hacc, fun it hit => hall it (by rw [← h.2] at hit; exact hit)⟩
      | mul =>
        simp only [arithLoop, Option.some.injEq, Prod.mk.injEq] at h
        exact ⟨h.1 ▸ hacc, fun it hit => hall it (by rw [← h.2] at hit; exact hit)⟩
      | div =>
        simp only [arithLoop, Option.some.injEq, Prod.mk.injEq] at h
        exact ⟨h.1 ▸ hacc, fun it hit => hall it (by rw [← h.2] at hit; exact hit)⟩
      | mod =>
        simp only [arithLoop, Option.some.injEq, Prod.mk.injEq] at h
        exact ⟨h.1 ▸ hacc, fun it hit => hall it (by rw [← h.2] at hit; exact hit)⟩
      | add =>
        cases hp : parseTerm f tl with
        | none => rw [arithLoop, hp] at h; exact absurd h (by simp)
        | some pr =>
          obtain ⟨v1, r1⟩ := pr
          rw [arithLoop, hp] at h
          obtain ⟨⟨b, hb⟩, hr1⟩ :=
            parseTerm_int f tl v1 r1 (fun it hit => hall it (by simp [hit])) hp
          obtain ⟨a, ha⟩ := hacc
          subst ha hb
          exact ih (Value.int (a + b)) r1 v r ⟨a + b, rfl⟩ hr1 h
      | sub =>
        cases hp : parseTerm f tl with
        | none => rw [arithLoop, hp] at h; exact absurd h (by simp)
        | some pr =>
          obtain ⟨v1, r1⟩ := pr
          rw [arithLoop, hp] at h
          obtain ⟨⟨b, hb⟩, hr1⟩ :=
            parseTerm_int f tl v1 r1 (fun it hit => hall it (by simp [hit])) hp
          obtain ⟨a, ha⟩ := hacc
          subst ha hb
          exact ih (Value.int (a - b)) r1 v r ⟨a - b, rfl⟩ hr1 h

/-- `parseArith` on integer-only items yields an Integer. -/
theorem parseArith_int (f : Nat) (ts : List PyTok) (v : Value) (r : List PyTok)
    (hall : ∀ it ∈ ts, intItem it = true) (h : parseArith f ts = some (v, r)) :
    ∃ n, v = Value.int n := by
  cases f with
  | zero => exact absurd h (by simp [parseArith])
  | succ f =>
    cases hp : parseTerm f ts with
    | none => rw [parseArith, hp] at h; exact absurd h (by simp)
    | some pr =>
      obtain ⟨v1, r1⟩ := pr
      rw [parseArith, hp] at h
      obtain ⟨hv1, hr1⟩ := parseTerm_int f ts v1 r1 hall hp
      exact (arithLoop_int f v1 r1 v r hv1 hr1 h).1

/-- Claim C8 (amended): for a successfully executed Assign whose
substituted expression lexes to Integer literals and operators among
`+ - * %` (no `/` — true division always produces a Float, see the
counterexample), the value stored is an Integer. -/
theorem claim_C8 (st : Store) (var expr : String) (toks : List String)
    (items : List PyTok) (v : Value)
    (h1 : substTokens st (pySplit expr) = some toks)
    (h2 : pyLex (joinSp toks) = some items)
    (hint : ∀ it ∈ items, intItem it = true)
    (h3 : parseArith (items.length * 3 + 10) items = some (v, [])) :
    ∃ n, v = Value.int n ∧
      task2_assign_variable st var expr = .ok (setVar st var (Value.int n)) := by
  obtain ⟨n, hn⟩ := parseArith_int _ _ _ _ hint h3
  refine ⟨n, hn, ?_⟩
  have hpe : pyEval (joinSp toks) = some v := by
    simp only [pyEval, h2, h3]
  simp only [task2_assign_variable, h1, hpe, hn]

/-- Witness for C8: `z = x + 2 * 3` with `x` bound to Integer 1 stores
Integer 7. -/
theorem claim_C8_wit :
    task2_assign_variable [("x", Value.int 1)] "z" "x + 2 * 3" =
      .ok [("x", Value.int 1), ("z", Value.int 7)] := by
  obtain ⟨n, hn, h⟩ := claim_C8 [("x", Value.int 1)] "z" "x + 2 * 3"
    ["1", "+", "2", "*", "3"]
    [.num (Value.int 1), .add, .num (Value.int 2), .mul, .num (Value.int 3)]
    (Value.int 7) rfl rfl (by decide) rfl
  have hn7 : n = 7 := by
    injection hn with h7
    exact h7.symm
  rw [hn7] at h
  exact h.trans rfl

/-! ## Frame property of the store (claims C10 and C9) -/

/-- A successful `Beg` writes exactly one key. -/
theorem beg_ok_shape {st : Store} {v s : String} {st' : Store}
    (h : task2_beg_variable st v s = .ok st') : ∃ u, st' = setVar st v u := by
  unfold task2_beg_variable at h
  split_ifs at h
  · exact ⟨_, by injection h with h'; exact h'.symm⟩
  · exact ⟨_, by injection h with h'; exact h'.symm⟩

/-- A successful `Assign` writes exactly one key. -/
theorem assign_ok_shape {st : Store} {v e : String} {st' : Store}
    (h : task2_assign_variable st v e = .ok st') : ∃ u, st' = setVar st v u := by
  unfold task2_assign_variable at h
  cases h1 : substTokens st (pySplit e) with
  | none => rw [h1] at h; cases h
  | some toks =>
    simp only [h1] at h
    cases h2 : pyEval (joinSp toks) with
    | none => simp only [h2] at h; cases h
    | some val =>
      simp only [h2] at h
      exact ⟨val, by injection h with h'; exact h'.symm⟩

/-- The store after one REPL line either is unchanged, or the line
tokenized and parsed to a `Beg` or `Assign` whose Task-2 call succeeded,
and the new store is a single `setVar` on the old one. -/
theorem processLine_mutation (st : Store) (line inp : String) :
    ((processLine st line inp).store = st) ∨
    (∃ ts v, tokenize (pyStrip line) = .ok ts ∧
      ((parse ts = .ok (.begCmd v) ∧
          task2_beg_variable st v (pyStrip inp) = .ok ((processLine st line inp).store)) ∨
       (∃ e, parse ts = .ok (.assignCmd v e) ∧
          task2_assign_variable st v e = .ok ((processLine st line inp).store))) ∧
      (∃ val, (processLine st line inp).store = setVar st v val)) := by
  by_cases h0 : pyStrip line = ""
  · left; simp [processLine, h0]
  by_cases h1 : hasMultipleKeywords (pyStrip line) = true
  · left; simp [processLine, h0, h1]
  cases ht : tokenize (pyStrip line) with
  | error e => left; simp [processLine, h0, h1, ht]
  | ok ts =>
    cases hp : parse ts with
    | error e => left; simp [processLine, h0, h1, ht, hp]
    | ok c =>
      cases c with
      | exitCmd => left; simp [processLine, h0, h1, ht, hp]
      | printCmd op =>
        left
        cases hr : task2_print_variable st op with
        | ok s => simp [processLine, h0, h1, ht, hp, execCommand, hr]
        | error err => simp [processLine, h0, h1, ht, hp, execCommand, hr]
      | exprCmd e =>
        left
        cases hr : task2_eval_expression st e with
        | ok msgs => simp [processLine, h0, h1, ht, hp, execCommand, hr]
        | error err => simp [processLine, h0, h1, ht, hp, execCommand, hr]
      | begCmd v =>
        cases hb : task2_beg_variable st v (pyStrip inp) with
        | error err => left; simp [processLine, h0, h1, ht, hp, execCommand, hb]
        | ok st' =>
          right
          have hpl : (processLine st line inp).store = st' := by
            simp [processLine, h0, h1, ht, hp, execCommand, hb]
          obtain ⟨u, hu⟩ := beg_ok_shape hb
          exact ⟨ts, v, rfl, Or.inl ⟨hp, by rw [hpl]; exact hb⟩,
            ⟨u, by rw [hpl]; exact hu⟩⟩
      | assignCmd v e =>
        cases hb : task2_assign_variable st v e with
        | error err => left; simp [processLine, h0, h1, ht, hp, execCommand, hb]
        | ok st' =>
          right
          have hpl : (processLine st line inp).store = st' := by
            simp [processLine, h0, h1, ht, hp, execCommand, hb]
          obtain ⟨u, hu⟩ := assign_ok_shape hb
          exact ⟨ts, v, rfl, Or.inr ⟨e, hp, by rw [hpl]; exact hb⟩,
            ⟨u, by rw [hpl]; exact hu⟩⟩

/-- Claim C10: the Variable Store is mutated only by a `Beg` or `Assign`
command that completes successfully, and then by a single `setVar` at
the end of execution; any failing command and every `Print`, `Expr` or
`Exit` leaves the store unchanged. -/
theorem claim_C10 (st : Store) (line inp : String) :
    ((processLine st line inp).store = st) ∨
    (∃ ts v, tokenize (pyStrip line) = .ok ts ∧
      ((parse ts = .ok (.begCmd v) ∧
          task2_beg_variable st v (pyStrip inp) = .ok ((processLine st line inp).store)) ∨
       (∃ e, parse ts = .ok (.assignCmd v e) ∧
          task2_assign_variable st v e = .ok ((processLine st line inp).store))) ∧
      (∃ val, (processLine st line inp).store = setVar st v val)) :=
  processLine_mutation st line inp

/-! ## Tokenizer facts for the store-key invariant (claim C9)

The Python regex gives the `KEYWORD` alternative priority over `IDENT`,
with `\b` boundaries around `BEG`/`PRINT`.  An `IDENT` token can carry
the exact lexeme `BEG`/`PRINT` only when glued to a preceding word
character (e.g. `9BEG`); at a position whose previous character is not a
word character, the keyword alternative would have won unless the next
character is `_`, which the `UNKNOWN` class turns into a raised error.
Hence in any successful tokenization the FIRST token, and the token
right after a `BEG` keyword, is never an identifier spelled like a
keyword. -/

/-- An underscore can start no lexical class, so scanning fails. -/
theorem scanAux_underscore (f : Nat) (p : Option Char) (r : List Char) :
    scanAux f p ('_' :: r) = .error .unknownCommand := by
  cases f with
  | zero => rfl
  | succ f => rfl

/-- A list is a prefix of itself followed by anything. -/
theorem listPre_self_append (w r : List Char) : listPre w (w ++ r) = true := by
  induction w with
  | nil => rfl
  | cons a t ih => simp [listPre, ih]

/-- The head surviving `dropWhile` fails the predicate. -/
theorem dropWhile_head_false {p : Char → Bool} :
    ∀ {l : List Char} {b : Char} {t : List Char},
      l.dropWhile p = b :: t → p b = false := by
  intro l
  induction l with
  | nil => intro b t h; cases h
  | cons a l' ih =>
    intro b t h
    rw [List.dropWhile_cons] at h
    by_cases ha : p a = true
    · rw [if_pos ha] at h; exact ih h
    · rw [if_neg ha] at h
      injection h with h1 _
      rw [← h1]
      exact Bool.not_eq_true _ ▸ (by simpa using ha)

/-- `lastOfRun` stays inside a predicate satisfied by the whole run. -/
theorem lastRun_prop {p : Char → Bool} :
    ∀ (l : List Char) (c : Char), p c = true → (∀ x ∈ l, p x = true) →
      p (lastOfRun c l) = true := by
  intro l
  induction l with
  | nil => intro c hc _; exact hc
  | cons d ds ih =>
    intro c hc hall
    exact ih d (hall d (by simp)) (fun x hx => hall x (by simp [hx]))

/-- Whitespace is not a word character. -/
theorem ws_not_word {c : Char} (h : c.isWhitespace = true) : isWordChar c = false := by
  simp only [Char.isWhitespace, Bool.or_eq_true, decide_eq_true_eq] at h
  rcases h with ((h | h) | h) | h <;> rw [h] <;> rfl

/-- `numToken` always produces a `number`-kind token. -/
theorem numToken_kind (sgn : List Char) (c : Char) (rest : List Char) :
    (numToken sgn c rest).1.kind = TKind.number := by
  unfold numToken
  rcases rest.dropWhile Char.isDigit with _ | ⟨c1, r2⟩
  · rfl
  · by_cases hd : c1 = '.'
    · subst hd
      by_cases h2 : digitHead r2 = true
      · simp [h2]
      · simp [h2]
    · simp only []
      rcases hc : c1 with _
      revert hd
      split <;> intro <;> first | rfl | (split <;> rfl)

/-- If `scanStep` produced no token, it scanned whitespace: the new
previous character is not a word character. -/
theorem scanStep_none_ws {prev : Option Char} {cs : List Char} {p' : Option Char}
    {cs' : List Char} (hs : scanStep prev cs = .ok (none, p', cs')) :
    wordB p' = true := by
  cases cs with
  | nil => cases hs
  | cons c rest =>
    simp only [scanStep] at hs
    split_ifs at hs with h1 h2 h3 h4 h5 h6 h7 h8 h9
    · simp at hs
    · simp at hs
    · simp at hs
    · simp at hs
    · rcases hnt : numToken [] c rest with ⟨tn, pn, rn⟩
      rw [hnt] at hs
      simp at hs
    · cases rest with
      | nil => simp [digitHead] at h6
      | cons d rest' =>
        rcases hnt : numToken ['-'] d rest' with ⟨tn, pn, rn⟩
        simp [hnt] at hs
    · simp at hs
    · simp at hs
    · simp only [Except.ok.injEq, Prod.mk.injEq] at hs
      obtain ⟨_, hp, _⟩ := hs
      rw [← hp]
      have hlast : (lastOfRun c (rest.takeWhile Char.isWhitespace)).isWhitespace = true :=
        lastRun_prop _ c h9 (fun x hx => List.mem_takeWhile_imp hx)
      simp [wordB, ws_not_word hlast]

/-- If `scanStep` at a non-word-boundary-free position (the previous
character is NOT a word character) produced an identifier token spelled
`BEG` or `PRINT`, the remaining input must begin with `_`. -/
theorem scanStep_ident_kw {prev : Option Char} {c : Char} {rest : List Char}
    {t0 : Token} {p' : Option Char} {cs' : List Char}
    (hw : wordB prev = true)
    (hs : scanStep prev (c :: rest) = .ok (some t0, p', cs'))
    (hk : t0.kind = TKind.ident)
    (hv : t0.value = "BEG" ∨ t0.value = "PRINT") :
    ∃ r3, cs' = '_' :: r3 := by
  simp only [scanStep] at hs
  split_ifs at hs with h1 h2 h3 h4 h5 h6 h7 h8 h9
  · simp only [Except.ok.injEq, Prod.mk.injEq, Option.some.injEq] at hs
    rw [← hs.1] at hk
    cases hk
  · simp only [Except.ok.injEq, Prod.mk.injEq, Option.some.injEq] at hs
    rw [← hs.1] at hk
    cases hk
  · simp only [Except.ok.injEq, Prod.mk.injEq, Option.some.injEq] at hs
    rw [← hs.1] at hk
    cases hk
  · -- identifier branch
    simp only [Except.ok.injEq, Prod.mk.injEq, Option.some.injEq] at hs
    obtain ⟨ht0, _, hcs⟩ := hs
    have hrest : rest.takeWhile Char.isAlphanum ++ rest.dropWhile Char.isAlphanum = rest :=
      List.takeWhile_append_dropWhile Char.isAlphanum rest
    have hval : t0.value = String.mk (c :: rest.takeWhile Char.isAlphanum) := by
      rw [← ht0]
    rcases hv with hb | hb
    · -- the lexeme is BEG
      have hchars : c :: rest.takeWhile Char.isAlphanum = ['B', 'E', 'G'] := by
        have := hval.symm.trans hb
        have h' : String.mk (c :: rest.takeWhile Char.isAlphanum) =
            String.mk ['B', 'E', 'G'] := this
        injection h'
      have hc : c = 'B' := by injection hchars
      have htw : rest.takeWhile Char.isAlphanum = ['E', 'G'] := by injection hchars
      have hrest' : rest = 'E' :: 'G' :: rest.dropWhile Char.isAlphanum := by
        conv_lhs => rw [← hrest]
        rw [htw]
        rfl
      have hfull : c :: rest = 'B' :: 'E' :: 'G' :: rest.dropWhile Char.isAlphanum := by
        conv_lhs => rw [hc, hrest']
      have hba : boundaryAfter (rest.dropWhile Char.isAlphanum) = false := by
        rcases Bool.eq_false_or_eq_true
          (boundaryAfter (rest.dropWhile Char.isAlphanum)) with hf | hf
        swap
        · exact hf
        · exfalso
          apply h1
          rw [hfull]
          have hp1 : listPre "BEG".toList
              ('B' :: 'E' :: 'G' :: rest.dropWhile Char.isAlphanum) = true :=
            listPre_self_append "BEG".toList (rest.dropWhile Char.isAlphanum)
          have hd3 : List.drop 3 ('B' :: 'E' :: 'G' :: rest.dropWhile Char.isAlphanum) =
              rest.dropWhile Char.isAlphanum := rfl
          rw [hp1, hw, hd3, hf]
          rfl
      rcases hd : rest.dropWhile Char.isAlphanum with _ | ⟨d, r3⟩
      · rw [hd] at hba; simp [boundaryAfter] at hba
      · rw [hd] at hba
        have hdw : isWordChar d = true := by
          simpa [boundaryAfter] using hba
        have hdna : d.isAlphanum = false := dropWhile_head_false hd
        have hdu : d = '_' := by
          simp only [isWordChar, hdna, Bool.false_or, decide_eq_true_eq] at hdw
          exact hdw
        exact ⟨r3, by rw [← hcs, hd, hdu]⟩
    · -- the lexeme is PRINT
      have hchars : c :: rest.takeWhile Char.isAlphanum = ['P', 'R', 'I', 'N', 'T'] := by
        have := hval.symm.trans hb
        have h' : String.mk (c :: rest.takeWhile Char.isAlphanum) =
            String.mk ['P', 'R', 'I', 'N', 'T'] := this
        injection h'
      have hc : c = 'P' := by injection hchars
      have htw : rest.takeWhile Char.isAlphanum = ['R', 'I', 'N', 'T'] := by
        injection hchars
      have hrest' : rest = 'R' :: 'I' :: 'N' :: 'T' :: rest.dropWhile Char.isAlphanum := by
        conv_lhs => rw [← hrest]
        rw [htw]
        rfl
      have hfull : c :: rest =
          'P' :: 'R' :: 'I' :: 'N' :: 'T' :: rest.dropWhile Char.isAlphanum := by
        conv_lhs => rw [hc, hrest']
      have hba : boundaryAfter (rest.dropWhile Char.isAlphanum) = false := by
        rcases Bool.eq_false_or_eq_true
          (boundaryAfter (rest.dropWhile Char.isAlphanum)) with hf | hf
        swap
        · exact hf
        · exfalso
          apply h2
          rw [hfull]
          have hp1 : listPre "PRINT".toList
              ('P' :: 'R' :: 'I' :: 'N' :: 'T' :: rest.dropWhile Char.isAlphanum) = true :=
            listPre_self_append "PRINT".toList (rest.dropWhile Char.isAlphanum)
          have hd5 : List.drop 5
              ('P' :: 'R' :: 'I' :: 'N' :: 'T' :: rest.dropWhile Char.isAlphanum) =
              rest.dropWhile Char.isAlphanum := rfl
          rw [hp1, hw, hd5, hf]
          rfl
      rcases hd : rest.dropWhile Char.isAlphanum with _ | ⟨d, r3⟩
      · rw [hd] at hba; simp [boundaryAfter] at hba
      · rw [hd] at hba
        have hdw : isWordChar d = true := by
          simpa [boundaryAfter] using hba
        have hdna : d.isAlphanum = false := dropWhile_head_false hd
        have hdu : d = '_' := by
          simp only [isWordChar, hdna, Bool.false_or, decide_eq_true_eq] at hdw
          exact hdw
        exact ⟨r3, by rw [← hcs, hd, hdu]⟩
  · rcases hnt : numToken [] c rest with ⟨tn, pn, rn⟩
    rw [hnt] at hs
    simp only [Except.ok.injEq, Prod.mk.injEq, Option.some.injEq] at hs
    have hn := numToken_kind [] c rest
    rw [hnt] at hn
    rw [hs.1] at hn
    simp at hn
    rw [hn] at hk
    cases hk
  · cases rest with
    | nil => simp [digitHead] at h6
    | cons d rest' =>
      rcases hnt : numToken ['-'] d rest' with ⟨tn, pn, rn⟩
      simp only [hnt] at hs
      simp only [Except.ok.injEq, Prod.mk.injEq, Option.some.injEq] at hs
      have hn := numToken_kind ['-'] d rest'
      rw [hnt] at hn
      rw [hs.1] at hn
      simp at hn
      rw [hn] at hk
      cases hk
  · simp only [Except.ok.injEq, Prod.mk.injEq, Option.some.injEq] at hs
    rw [← hs.1] at hk
    cases hk
  · simp only [Except.ok.injEq, Prod.mk.injEq, Option.some.injEq] at hs
    rw [← hs.1] at hk
    cases hk
  · simp at hs

/-- If the head of the input is not a word character, `scanStep` cannot
produce an identifier token (identifiers start with a letter). -/
theorem scanStep_nonword_not_ident {prev : Option Char} {d : Char} {r : List Char}
    {t0 : Token} {p2 : Option Char} {cs2 : List Char}
    (hd : isWordChar d = false)
    (hs : scanStep prev (d :: r) = .ok (some t0, p2, cs2)) :
    t0.kind ≠ TKind.ident := by
  simp only [scanStep] at hs
  split_ifs at hs with h1 h2 h3 h4 h5 h6 h7 h8 h9
  · simp only [Except.ok.injEq, Prod.mk.injEq, Option.some.injEq] at hs
    rw [← hs.1]
    intro hx
    cases hx
  · simp only [Except.ok.injEq, Prod.mk.injEq, Option.some.injEq] at hs
    rw [← hs.1]
    intro hx
    cases hx
  · simp only [Except.ok.injEq, Prod.mk.injEq, Option.some.injEq] at hs
    rw [← hs.1]
    intro hx
    cases hx
  · -- a letter head is a word character
    exfalso
    have : isWordChar d = true := by
      simp [isWordChar, Char.isAlphanum, h4]
    rw [this] at hd
    cases hd
  · -- a digit head is a word character
    exfalso
    have : isWordChar d = true := by
      simp [isWordChar, Char.isAlphanum, h5]
    rw [this] at hd
    cases hd
  · cases r with
    | nil => simp [digitHead] at h6
    | cons e r2 =>
      rcases hnt : numToken ['-'] e r2 with ⟨tn, pn, rn⟩
      simp only [hnt] at hs
      simp only [Except.ok.injEq, Prod.mk.injEq, Option.some.injEq] at hs
      have hn := numToken_kind ['-'] e r2
      rw [hnt] at hn
      rw [hs.1] at hn
      simp at hn
      rw [hn]
      intro hx
      cases hx
  · simp only [Except.ok.injEq, Prod.mk.injEq, Option.some.injEq] at hs
    rw [← hs.1]
    intro hx
    cases hx
  · simp only [Except.ok.injEq, Prod.mk.injEq, Option.some.injEq] at hs
    rw [← hs.1]
    intro hx
    cases hx
  · simp at hs

/-- If `scanStep` produced the keyword token `BEG`, the regex's trailing
`\b` held: the remaining input is empty or starts with a non-word
character. -/
theorem scanStep_kw_beg {prev : Option Char} {cs : List Char}
    {p2 : Option Char} {cs2 : List Char}
    (hs : scanStep prev cs = .ok (some ⟨TKind.keyword, "BEG"⟩, p2, cs2)) :
    boundaryAfter cs2 = true := by
  cases cs with
  | nil => cases hs
  | cons c rest =>
    simp only [scanStep] at hs
    split_ifs at hs with h1 h2 h3 h4 h5 h6 h7 h8 h9
    · simp only [Except.ok.injEq, Prod.mk.injEq, Option.some.injEq] at hs
      rw [← hs.2.2]
      rcases (Bool.and_eq_true _ _).mp h1 with ⟨_, hba⟩
      exact hba
    · simp at hs
    · simp at hs
    · simp at hs
    · rcases hnt : numToken [] c rest with ⟨tn, pn, rn⟩
      rw [hnt] at hs
      simp only [Except.ok.injEq, Prod.mk.injEq, Option.some.injEq] at hs
      have hn := numToken_kind [] c rest
      rw [hnt] at hn
      rw [hs.1] at hn
      simp at hn
    · cases rest with
      | nil => simp [digitHead] at h6
      | cons e r2 =>
        rcases hnt : numToken ['-'] e r2 with ⟨tn, pn, rn⟩
        simp only [hnt] at hs
        simp only [Except.ok.injEq, Prod.mk.injEq, Option.some.injEq] at hs
        have hn := numToken_kind ['-'] e r2
        rw [hnt] at hn
        rw [hs.1] at hn
        simp at hn
    · simp at hs
    · simp at hs
    · simp at hs

/-- In a successful scan whose position sits at a word boundary (the
previous character is absent or not a word character), the first token,
if an identifier, is not spelled `BEG` or `PRINT`: the keyword
alternative would have matched first, except when the following
character is `_`, which aborts the whole tokenization. -/
theorem scan_first_ident_safe :
    ∀ (f : Nat) (prev : Option Char) (cs : List Char) (t : Token) (ts : List Token),
      wordB prev = true → scanAux f prev cs = .ok (t :: ts) → t.kind = TKind.ident →
      ¬(t.value = "BEG" ∨ t.value = "PRINT") := by
  intro f
  induction f with
  | zero =>
    intro prev cs t ts _ h _
    cases cs with
    | nil => exact absurd h (by simp [scanAux])
    | cons c r => exact absurd h (by simp [scanAux])
  | succ f ih =>
    intro prev cs t ts hw h hk hv
    cases cs with
    | nil => exact absurd h (by simp [scanAux])
    | cons c rest =>
      simp only [scanAux] at h
      cases hs : scanStep prev (c :: rest) with
      | error e => simp only [hs] at h; exact absurd h (by simp)
      | ok tri =>
        obtain ⟨topt, p2, cs2⟩ := tri
        simp only [hs] at h
        cases hr : scanAux f p2 cs2 with
        | error e => simp only [hr] at h; exact absurd h (by simp)
        | ok ts0 =>
          simp only [hr] at h
          cases topt with
          | none =>
            have hts : ts0 = t :: ts := by simpa using h
            exact ih p2 cs2 t ts (scanStep_none_ws hs) (by rw [hr, hts]) hk hv
          | some t0 =>
            have hts : t0 = t ∧ ts0 = ts := by simpa using h
            rw [hts.1] at hs
            obtain ⟨r3, hcs⟩ := scanStep_ident_kw hw hs hk hv
            rw [hcs, scanAux_underscore] at hr
            exact absurd hr (by simp)

/-- In a successful scan whose input starts with a non-word character,
the first token, if an identifier, is not spelled `BEG` or `PRINT`. -/
theorem scan_head_nonword_ident_safe
    (f : Nat) (prev : Option Char) (d : Char) (r : List Char) (t : Token)
    (ts : List Token) (hd : isWordChar d = false)
    (h : scanAux f prev (d :: r) = .ok (t :: ts)) (hk : t.kind = TKind.ident) :
    ¬(t.value = "BEG" ∨ t.value = "PRINT") := by
  intro hv
  cases f with
  | zero => exact absurd h (by simp [scanAux])
  | succ f =>
    simp only [scanAux] at h
    cases hs : scanStep prev (d :: r) with
    | error e => simp only [hs] at h; exact absurd h (by simp)
    | ok tri =>
      obtain ⟨topt, p2, cs2⟩ := tri
      simp only [hs] at h
      cases hr : scanAux f p2 cs2 with
      | error e => simp only [hr] at h; exact absurd h (by simp)
      | ok ts0 =>
        simp only [hr] at h
        cases topt with
        | none =>
          have hts : ts0 = t :: ts := by simpa using h
          exact scan_first_ident_safe f p2 cs2 t ts (scanStep_none_ws hs)
            (by rw [hr, hts]) hk hv
        | some t0 =>
          have hts : t0 = t ∧ ts0 = ts := by simpa using h
          rw [hts.1] at hs
          exact scanStep_nonword_not_ident hd hs hk

/-- In a successful scan, the token immediately after a `BEG` keyword
token, if an identifier, is not spelled `BEG` or `PRINT` (the keyword's
trailing word boundary forces a non-word character in between). -/
theorem scan_after_beg_ident_safe :
    ∀ (f : Nat) (prev : Option Char) (cs : List Char) (t1 : Token) (ts : List Token),
      scanAux f prev cs = .ok (⟨TKind.keyword, "BEG"⟩ :: t1 :: ts) →
      t1.kind = TKind.ident → ¬(t1.value = "BEG" ∨ t1.value = "PRINT") := by
  intro f
  induction f with
  | zero =>
    intro prev cs t1 ts h
    cases cs with
    | nil => exact absurd h (by simp [scanAux])
    | cons c r => exact absurd h (by simp [scanAux])
  | succ f ih =>
    intro prev cs t1 ts h hk hv
    cases cs with
    | nil => exact absurd h (by simp [scanAux])
    | cons c rest =>
      simp only [scanAux] at h
      cases hs : scanStep prev (c :: rest) with
      | error e => simp only [hs] at h; exact absurd h (by simp)
      | ok tri =>
        obtain ⟨topt, p2, cs2⟩ := tri
        simp only [hs] at h
        cases hr : scanAux f p2 cs2 with
        | error e => simp only [hr] at h; exact absurd h (by simp)
        | ok ts0 =>
          simp only [hr] at h
          cases topt with
          | none =>
            have hts : ts0 = ⟨TKind.keyword, "BEG"⟩ :: t1 :: ts := by simpa using h
            exact ih p2 cs2 t1 ts (by rw [hr, hts]) hk hv
          | some t0 =>
            have hts : t0 = ⟨TKind.keyword, "BEG"⟩ ∧ ts0 = t1 :: ts := by
              simpa using h
            rw [hts.1] at hs
            have hba := scanStep_kw_beg hs
            cases cs2 with
            | nil =>
              rw [hts.2] at hr
              exact absurd hr (by simp [scanAux])
            | cons d r2 =>
              have hdw : isWordChar d = false := by
                simpa [boundaryAfter] using hba
              rw [hts.2] at hr
              exact scan_head_nonword_ident_safe f p2 d r2 t1 ts hdw hr hk hv

/-- A list whose `take` is a singleton starts with that element. -/
theorem take_singleton_head {α : Type} :
    ∀ (l : List α) (n : Nat) (x : α), l.take n = [x] → ∃ tl, l = x :: tl := by
  intro l n x h
  cases l with
  | nil => rw [List.take_nil] at h; cases h
  | cons a tl =>
    cases n with
    | zero => cases h
    | succ n =>
      rw [List.take_succ_cons] at h
      injection h with h1 _
      exact ⟨tl, by rw [h1]⟩

/-- An identifier-grammar lexeme is never `EXIT!`. -/
theorem ident_not_exit {v : String} (h : matchIdentStr v = true) : v ≠ "EXIT!" := by
  intro he
  rw [he] at h
  exact absurd h (by decide)

/-- A `Beg` command produced by `parse` on a real tokenization binds a
legal key. -/
theorem parse_beg_good {l : String} {ts : List Token} {v : String}
    (ht : tokenize l = .ok ts) (hp : parse ts = .ok (.begCmd v)) : goodKey v := by
  cases ts with
  | nil => exact absurd hp (by simp [parse])
  | cons t0 rest =>
    simp only [parse] at hp
    by_cases c1 : t0.kind = TKind.keyword ∧ t0.value = "EXIT!"
    · rw [if_pos c1] at hp
      by_cases c2 : rest = []
      · rw [if_pos c2] at hp; simp at hp
      · rw [if_neg c2] at hp; simp at hp
    rw [if_neg c1] at hp
    by_cases c3 : t0.kind = TKind.keyword ∧ t0.value = "BEG"
    · rw [if_pos c3] at hp
      rcases rest with _ | ⟨t1, _ | ⟨t2, rr⟩⟩
      · simp at hp
      · simp only [] at hp
        by_cases ht1 : t1.kind = TKind.ident
        · rw [if_pos ht1] at hp
          simp only [mkBeg] at hp
          by_cases hm : matchIdentStr t1.value = true
          · rw [if_pos hm] at hp
            have hval : v = t1.value := by
              simp only [Except.ok.injEq, Command.begCmd.injEq] at hp
              exact hp.symm
            have ht0 : t0 = ⟨TKind.keyword, "BEG"⟩ := by
              obtain ⟨hk0, hv0⟩ := c3
              cases t0
              simp only at hk0 hv0
              rw [hk0, hv0]
            rw [ht0] at ht
            have hsafe := scan_after_beg_ident_safe (l.toList.length + 1) none l.toList
              t1 [] ht ht1
            rw [hval]
            have hm' : matchIdentStr t1.value = true := hm
            refine ⟨hm', fun hb => hsafe (Or.inl hb), fun hb => hsafe (Or.inr hb),
              ident_not_exit hm'⟩
          · rw [if_neg hm] at hp; simp at hp
        · rw [if_neg ht1] at hp; simp at hp
      · simp at hp
    rw [if_neg c3] at hp
    by_cases c4 : t0.kind = TKind.keyword ∧ t0.value = "PRINT"
    · rw [if_pos c4] at hp
      rcases rest with _ | ⟨t1, _ | ⟨t2, rr⟩⟩ <;> simp at hp
    rw [if_neg c4] at hp
    by_cases c5 : t0.kind = TKind.operator
    · rw [if_pos c5] at hp; simp at hp
    rw [if_neg c5] at hp
    by_cases c6 : (rest.any fun t => t.kind == TKind.keyword) = true
    · rw [if_pos c6] at hp; simp at hp
    rw [if_neg c6] at hp
    by_cases c7 : ((t0 :: rest).map Token.value).contains "=" = true
    · rw [if_pos c7] at hp
      rcases hq : (t0 :: rest).take (firstEqIdx (t0 :: rest)) with _ | ⟨v0, _ | ⟨w0, qq⟩⟩ <;>
        rw [hq] at hp
      · simp at hp
      · simp only [] at hp
        by_cases hcond : v0.kind = TKind.ident ∧ matchIdentStr v0.value = true
        · rw [if_pos hcond] at hp; simp at hp
        · rw [if_neg hcond] at hp; simp at hp
      · simp at hp
    rw [if_neg c7] at hp
    simp at hp

/-- An `Assign` command produced by `parse` on a real tokenization binds
a legal key. -/
theorem parse_assign_good {l : String} {ts : List Token} {v e : String}
    (ht : tokenize l = .ok ts) (hp : parse ts = .ok (.assignCmd v e)) : goodKey v := by
  cases ts with
  | nil => exact absurd hp (by simp [parse])
  | cons t0 rest =>
    simp only [parse] at hp
    by_cases c1 : t0.kind = TKind.keyword ∧ t0.value = "EXIT!"
    · rw [if_pos c1] at hp
      by_cases c2 : rest = []
      · rw [if_pos c2] at hp; simp at hp
      · rw [if_neg c2] at hp; simp at hp
    rw [if_neg c1] at hp
    by_cases c3 : t0.kind = TKind.keyword ∧ t0.value = "BEG"
    · rw [if_pos c3] at hp
      rcases rest with _ | ⟨t1, _ | ⟨t2, rr⟩⟩
      · simp at hp
      · simp only [] at hp
        by_cases ht1 : t1.kind = TKind.ident
        · rw [if_pos ht1] at hp
          simp only [mkBeg] at hp
          by_cases hm : matchIdentStr t1.value = true
          · rw [if_pos hm] at hp; simp at hp
          · rw [if_neg hm] at hp; simp at hp
        · rw [if_neg ht1] at hp; simp at hp
      · simp at hp
    rw [if_neg c3] at hp
    by_cases c4 : t0.kind = TKind.keyword ∧ t0.value = "PRINT"
    · rw [if_pos c4] at hp
      rcases rest with _ | ⟨t1, _ | ⟨t2, rr⟩⟩ <;> simp at hp
    rw [if_neg c4] at hp
    by_cases c5 : t0.kind = TKind.operator
    · rw [if_pos c5] at hp; simp at hp
    rw [if_neg c5] at hp
    by_cases c6 : (rest.any fun t => t.kind == TKind.keyword) = true
    · rw [if_pos c6] at hp; simp at hp
    rw [if_neg c6] at hp
    by_cases c7 : ((t0 :: rest).map Token.value).contains "=" = true
    · rw [if_pos c7] at hp
      rcases hq : (t0 :: rest).take (firstEqIdx (t0 :: rest)) with _ | ⟨v0, _ | ⟨w0, qq⟩⟩ <;>
        rw [hq] at hp
      · simp at hp
      · simp only [] at hp
        by_cases hcond : v0.kind = TKind.ident ∧ matchIdentStr v0.value = true
        · rw [if_pos hcond] at hp
          have hval : v = v0.value := by
            simp only [Except.ok.injEq, Command.assignCmd.injEq] at hp
            exact hp.1.symm
          obtain ⟨tl, htl⟩ := take_singleton_head (t0 :: rest) (firstEqIdx (t0 :: rest)) v0 hq
          rw [htl] at ht
          have hsafe := scan_first_ident_safe (l.toList.length + 1) none l.toList
            v0 tl rfl ht hcond.1
          rw [hval]
          refine ⟨hcond.2, fun hb => hsafe (Or.inl hb), fun hb => hsafe (Or.inr hb),
            ident_not_exit hcond.2⟩
        · rw [if_neg hcond] at hp; simp at hp
      · simp at hp
    rw [if_neg c7] at hp
    simp at hp

/-- `setVar` with a legal key preserves store-key legality. -/
theorem goodStore_setVar : ∀ {st : Store} {v : String} {val : Value},
    goodStore st → goodKey v → goodStore (setVar st v val) := by
  intro st
  induction st with
  | nil =>
    intro v val _ hv kv hkv
    simp only [setVar, List.mem_singleton] at hkv
    rw [hkv]
    exact hv
  | cons hd tl ih =>
    intro v val hst hv kv hkv
    obtain ⟨k', v'⟩ := hd
    simp only [setVar] at hkv
    by_cases hk : k' = v
    · rw [if_pos hk] at hkv
      rcases List.mem_cons.mp hkv with h | h
      · rw [h]; exact hv
      · exact hst _ (List.mem_cons_of_mem _ h)
    · rw [if_neg hk] at hkv
      rcases List.mem_cons.mp hkv with h | h
      · rw [h]; exact hst (k', v') (by simp)
      · exact ih (fun kv2 hkv2 => hst kv2 (List.mem_cons_of_mem _ hkv2)) hv _ h

/-- One REPL line preserves store-key legality. -/
theorem processLine_good (st : Store) (line inp : String) (hst : goodStore st) :
    goodStore (processLine st line inp).store := by
  rcases processLine_mutation st line inp with h | ⟨ts, v, ht, hcmd, val, hset⟩
  · rw [h]; exact hst
  · rw [hset]
    apply goodStore_setVar hst
    rcases hcmd with ⟨hp, _⟩ | ⟨e, hp, _⟩
    · exact parse_beg_good ht hp
    · exact parse_assign_good ht hp

/-- Any run of the REPL preserves store-key legality. -/
theorem runLines_good :
    ∀ (lines : List (String × String)) (st : Store), goodStore st →
      goodStore (runLines st lines) := by
  intro lines
  induction lines with
  | nil => intro st h; exact h
  | cons li rest ih =>
    intro st h
    obtain ⟨l, i⟩ := li
    by_cases he : (processLine st l i).exited = true
    · simp only [runLines, he, if_pos]
      exact processLine_good st l i h
    · simp only [runLines, if_neg he]
      exact ih _ (processLine_good st l i h)

/-- Claim C9: after any sequence of executed commands starting from the
empty store, every key in the Variable Store matches the identifier
grammar and is never a reserved keyword lexeme. -/
theorem claim_C9 (lines : List (String × String)) :
    ∀ kv ∈ runLines [] lines, goodKey kv.1 :=
  runLines_good lines [] (fun kv hkv => by cases hkv)

/-- Witness for C9 after running `BEG x` with input `5`. -/
theorem claim_C9_wit :
    ("x", Value.int 5) ∈ runLines [] [("BEG x", "5")] ∧ goodKey "x" := by
  have hm : ("x", Value.int 5) ∈ runLines [] [("BEG x", "5")] := by decide
  exact ⟨hm, claim_C9 [("BEG x", "5")] ("x", Value.int 5) hm⟩

end SNOL
